import Mathlib

/-!
Shallow embedding of the TwitchAutoFarm core: the in-memory entity store
(src/server/storage.ts), the route-level cascade behaviour it implements,
and the prediction decision engine (src/client/src/lib/twitch-helpers.ts).

Modelling conventions:
- JavaScript numbers are modelled by exact rationals.  The payout path can
  divide by zero, which in JavaScript produces Infinity or NaN, so the
  payout computation runs over JSNum, a rational extended with NaN and the
  two infinities following IEEE-754 special-value rules (rounding of finite
  values is not modelled; all finite arithmetic is exact).
- A JavaScript Map is modelled as an insertion-ordered association list:
  set replaces in place when the key is present and appends otherwise;
  delete removes the entry with the key; iteration follows list order.
- Timestamps are an ambient clock value carried in the store state; no
  claim depends on time, so operations leave the clock unchanged.
- Array.prototype.sort is stability-guaranteed (ES2019); it is modelled by
  a stable insertion sort with the same ascending comparator.
-/

namespace TwitchAutoFarm

/-! ## Decision engine data model (twitch-helpers.ts) -/

/-- One selectable outcome of a prediction, as in the TwitchPrediction
interface of twitch-helpers.ts. -/
structure Outcome where
  id : String
  title : String
  color : String
  totalPoints : ℚ
  totalUsers : ℚ
deriving DecidableEq

/-- A prediction snapshot (fields of TwitchPrediction that the decision
engine reads). -/
structure TwitchPrediction where
  id : String
  title : String
  outcomes : List Outcome
  status : String
deriving DecidableEq

/-- The four prediction strategies. -/
inductive Strategy
| random
| majority
| percentage
| custom
deriving DecidableEq

/-- Intermediate record built by the percentage branch: outcome id paired
with its computed odds. -/
structure OddsEntry where
  id : String
  odds : ℚ
deriving DecidableEq

/-- Stable insertion step for the ascending-odds sort.  An element is
placed before the first element it compares less-or-equal to, so elements
with equal odds keep their original relative order, matching the
stability guarantee of Array.prototype.sort. -/
def orderedInsertOdds (x : OddsEntry) : List OddsEntry → List OddsEntry
| [] => [x]
| y :: ys => if x.odds ≤ y.odds then x :: y :: ys else y :: orderedInsertOdds x ys

/-- Stable ascending sort by odds, modelling
oddsWithId.sort((a, b) => a.odds - b.odds). -/
def sortByOdds : List OddsEntry → List OddsEntry
| [] => []
| x :: xs => orderedInsertOdds x (sortByOdds xs)

/-- determineBestPredictionOutcome from twitch-helpers.ts.  The rand
argument injects the value of Math.random() used by the random branch. -/
def determineBestPredictionOutcome (rand : ℚ) (prediction : TwitchPrediction)
    (strategy : Strategy) (favorableOddsOnly : Bool) : Option String :=
  match prediction.outcomes with
  | [] => none
  | o :: rest =>
    match strategy with
    | Strategy.random =>
      let randomIndex := (⌊rand * ((o :: rest).length : ℚ)⌋).toNat
      ((o :: rest).get? randomIndex).map Outcome.id
    | Strategy.majority =>
      let mostUsers := rest.foldl
        (fun prev current => if prev.totalUsers > current.totalUsers then prev else current) o
      some mostUsers.id
    | Strategy.percentage =>
      let totalPoints := (o :: rest).foldl (fun sum outcome => sum + outcome.totalPoints) 0
      let oddsWithId := (o :: rest).map (fun outcome =>
        OddsEntry.mk outcome.id (if totalPoints > 0 then outcome.totalPoints / totalPoints else 0))
      match sortByOdds oddsWithId with
      | [] => none
      | best :: _ =>
        if favorableOddsOnly ∧ best.odds > 1 / 2 then none else some best.id
    | Strategy.custom =>
      let bestReturn := rest.foldl
        (fun prev current => if prev.totalPoints < current.totalPoints then prev else current) o
      some bestReturn.id

/-! ## JavaScript numbers for the payout path -/

/-- A JavaScript number as used by calculatePotentialWinnings: an exact
rational, or one of the IEEE-754 special values NaN, Infinity and
-Infinity that arise from division by zero. -/
inductive JSNum
| nan
| posInf
| negInf
| num (q : ℚ)
deriving DecidableEq

/-- JavaScript addition on JSNum. -/
def jsAdd : JSNum → JSNum → JSNum
| JSNum.nan, _ => JSNum.nan
| _, JSNum.nan => JSNum.nan
| JSNum.posInf, JSNum.negInf => JSNum.nan
| JSNum.negInf, JSNum.posInf => JSNum.nan
| JSNum.posInf, _ => JSNum.posInf
| _, JSNum.posInf => JSNum.posInf
| JSNum.negInf, _ => JSNum.negInf
| _, JSNum.negInf => JSNum.negInf
| JSNum.num a, JSNum.num b => JSNum.num (a + b)

/-- JavaScript multiplication on JSNum; an infinity times zero is NaN. -/
def jsMul : JSNum → JSNum → JSNum
| JSNum.nan, _ => JSNum.nan
| _, JSNum.nan => JSNum.nan
| JSNum.posInf, JSNum.posInf => JSNum.posInf
| JSNum.posInf, JSNum.negInf => JSNum.negInf
| JSNum.negInf, JSNum.posInf => JSNum.negInf
| JSNum.negInf, JSNum.negInf => JSNum.posInf
| JSNum.posInf, JSNum.num b =>
  if b = 0 then JSNum.nan else if 0 < b then JSNum.posInf else JSNum.negInf
| JSNum.num a, JSNum.posInf =>
  if a = 0 then JSNum.nan else if 0 < a then JSNum.posInf else JSNum.negInf
| JSNum.negInf, JSNum.num b =>
  if b = 0 then JSNum.nan else if 0 < b then JSNum.negInf else JSNum.posInf
| JSNum.num a, JSNum.negInf =>
  if a = 0 then JSNum.nan else if 0 < a then JSNum.negInf else JSNum.posInf
| JSNum.num a, JSNum.num b => JSNum.num (a * b)

/-- JavaScript division on JSNum.  A nonzero finite value divided by zero
is a signed infinity and 0 / 0 is NaN (the sign of zero is not modelled;
rational arithmetic has a single zero). -/
def jsDiv : JSNum → JSNum → JSNum
| JSNum.nan, _ => JSNum.nan
| _, JSNum.nan => JSNum.nan
| JSNum.posInf, JSNum.posInf => JSNum.nan
| JSNum.posInf, JSNum.negInf => JSNum.nan
| JSNum.negInf, JSNum.posInf => JSNum.nan
| JSNum.negInf, JSNum.negInf => JSNum.nan
| JSNum.posInf, JSNum.num b => if 0 ≤ b then JSNum.posInf else JSNum.negInf
| JSNum.negInf, JSNum.num b => if 0 ≤ b then JSNum.negInf else JSNum.posInf
| JSNum.num _, JSNum.posInf => JSNum.num 0
| JSNum.num _, JSNum.negInf => JSNum.num 0
| JSNum.num a, JSNum.num b =>
  if b = 0 then
    (if a = 0 then JSNum.nan else if 0 < a then JSNum.posInf else JSNum.negInf)
  else JSNum.num (a / b)

/-- Math.floor on JSNum: the identity on NaN and the infinities. -/
def jsFloor : JSNum → JSNum
| JSNum.nan => JSNum.nan
| JSNum.posInf => JSNum.posInf
| JSNum.negInf => JSNum.negInf
| JSNum.num a => JSNum.num ((⌊a⌋ : ℤ) : ℚ)

/-- calculatePotentialWinnings from twitch-helpers.ts, computed over
JSNum so that the division-by-zero behaviour of JavaScript is kept. -/
def calculatePotentialWinnings (prediction : TwitchPrediction) (outcomeId : String)
    (betAmount : ℚ) : JSNum :=
  match prediction.outcomes.find? (fun o => o.id == outcomeId) with
  | none => JSNum.num 0
  | some outcome =>
    let totalPoints := prediction.outcomes.foldl (fun sum o => sum + o.totalPoints) 0
    let otherPoints := totalPoints - outcome.totalPoints
    let potentialReturn :=
      jsMul (jsDiv (JSNum.num otherPoints) (JSNum.num (outcome.totalPoints + betAmount)))
        (JSNum.num betAmount)
    jsFloor (jsAdd potentialReturn (JSNum.num betAmount))

/-- Sum of the totalPoints fields of a list of outcomes, as the code
folds it. -/
def sumTotalPoints (outcomes : List Outcome) : ℚ :=
  outcomes.foldl (fun sum o => sum + o.totalPoints) 0

/-- Odds of one outcome as the percentage branch computes them: its
totalPoints over the total, and 0 for every outcome when the total is not
positive. -/
def outcomeOdds (outcomes : List Outcome) (o : Outcome) : ℚ :=
  if sumTotalPoints outcomes > 0 then o.totalPoints / sumTotalPoints outcomes else 0

/-- The payout formula exactly as the specification words it:
floor((otherPoints / (outcomePoints + betAmount)) * betAmount + betAmount),
read over exact rationals. -/
def payoutSpec (outcomePoints otherPoints betAmount : ℚ) : ℤ :=
  ⌊otherPoints / (outcomePoints + betAmount) * betAmount + betAmount⌋

/-! ## JavaScript Map model -/

/-- Lookup in an insertion-ordered association list, as Map.prototype.get. -/
def mapGet {α : Type} (m : List (Nat × α)) (k : Nat) : Option α :=
  (m.find? (fun p => p.1 == k)).map Prod.snd

/-- Membership test, as Map.prototype.has (and the boolean result of
Map.prototype.delete). -/
def mapHas {α : Type} (m : List (Nat × α)) (k : Nat) : Bool :=
  m.any (fun p => p.1 == k)

/-- Map.prototype.set: replace in place when the key is present, append
otherwise, keeping insertion order. -/
def mapSet {α : Type} : List (Nat × α) → Nat → α → List (Nat × α)
| [], k, v => [(k, v)]
| (k2, v2) :: rest, k, v =>
  if k2 = k then (k, v) :: rest else (k2, v2) :: mapSet rest k v

/-- Map.prototype.delete: remove the entry carrying the key (the first
one in list order; a JavaScript Map holds each key at most once). -/
def mapErase {α : Type} : List (Nat × α) → Nat → List (Nat × α)
| [], _ => []
| (k2, v2) :: rest, k =>
  if k2 = k then rest else (k2, v2) :: mapErase rest k

/-! ## Entity store data model (shared/schema.ts, server/storage.ts) -/

/-- A stored user record. -/
structure User where
  id : Nat
  username : String
  password : String
deriving DecidableEq

/-- Insert shape for User. -/
structure InsertUser where
  username : String
  password : String
deriving DecidableEq

/-- A stored platform account record. -/
structure Account where
  id : Nat
  name : String
  username : String
  authType : String
  authCredentials : String
  remember : Bool
  active : Bool
deriving DecidableEq

/-- Insert shape for Account (insertAccountSchema picks these fields). -/
structure InsertAccount where
  name : String
  username : String
  authType : String
  authCredentials : String
  remember : Bool
deriving DecidableEq

/-- The per-farm feature flags. -/
structure Features where
  claimPoints : Bool
  watchTime : Bool
  predictions : Bool
  claimDrops : Bool
deriving DecidableEq

/-- The per-farm prediction settings. -/
structure PredictionSettings where
  strategy : Strategy
  maxPoints : ℚ
  favorableOddsOnly : Bool
deriving DecidableEq

/-- A stored farm record. -/
structure Farm where
  id : Nat
  accountId : Nat
  channelName : String
  channelId : String
  profileImage : String
  status : String
  uptime : ℤ
  pointsClaimed : ℤ
  watchTime : ℤ
  enabled : Bool
  features : Features
  predictionSettings : PredictionSettings
  lastActivity : Nat
deriving DecidableEq

/-- Insert shape for Farm (insertFarmSchema picks these fields). -/
structure InsertFarm where
  accountId : Nat
  channelName : String
  features : Features
  predictionSettings : PredictionSettings
deriving DecidableEq

/-- A stored log record. -/
structure Log where
  id : Nat
  timestamp : Nat
  accountId : Nat
  accountName : String
  channelId : String
  channelName : String
  event : String
  status : String
  details : Option String
deriving DecidableEq

/-- Insert shape for Log (insertLogSchema picks these fields). -/
structure InsertLog where
  accountId : Nat
  accountName : String
  channelId : String
  channelName : String
  event : String
  status : String
  details : Option String
deriving DecidableEq

/-- The single mutable statistics snapshot. -/
structure Stat where
  id : Nat
  date : Nat
  activeFarms : ℤ
  pointsClaimed : ℤ
  watchHours : ℤ
  predictionRate : ℤ
deriving DecidableEq

/-- A patch object for Farm (a JavaScript object holding any subset of
the record's fields); a field that is absent leaves the stored value
untouched under the spread merge. -/
structure FarmPatch where
  id : Option Nat := none
  accountId : Option Nat := none
  channelName : Option String := none
  channelId : Option String := none
  profileImage : Option String := none
  status : Option String := none
  uptime : Option ℤ := none
  pointsClaimed : Option ℤ := none
  watchTime : Option ℤ := none
  enabled : Option Bool := none
  features : Option Features := none
  predictionSettings : Option PredictionSettings := none
  lastActivity : Option Nat := none
deriving DecidableEq

/-- A patch object for Account. -/
structure AccountPatch where
  id : Option Nat := none
  name : Option String := none
  username : Option String := none
  authType : Option String := none
  authCredentials : Option String := none
  remember : Option Bool := none
  active : Option Bool := none
deriving DecidableEq

/-- A patch object for Stat. -/
structure StatPatch where
  id : Option Nat := none
  date : Option Nat := none
  activeFarms : Option ℤ := none
  pointsClaimed : Option ℤ := none
  watchHours : Option ℤ := none
  predictionRate : Option ℤ := none
deriving DecidableEq

/-- Spread merge of a patch over a farm: { ...farm, ...patch }. -/
def mergeFarm (farm : Farm) (p : FarmPatch) : Farm :=
  { id := p.id.getD farm.id
    accountId := p.accountId.getD farm.accountId
    channelName := p.channelName.getD farm.channelName
    channelId := p.channelId.getD farm.channelId
    profileImage := p.profileImage.getD farm.profileImage
    status := p.status.getD farm.status
    uptime := p.uptime.getD farm.uptime
    pointsClaimed := p.pointsClaimed.getD farm.pointsClaimed
    watchTime := p.watchTime.getD farm.watchTime
    enabled := p.enabled.getD farm.enabled
    features := p.features.getD farm.features
    predictionSettings := p.predictionSettings.getD farm.predictionSettings
    lastActivity := p.lastActivity.getD farm.lastActivity }

/-- Spread merge of a patch over an account: { ...account, ...patch }. -/
def mergeAccount (account : Account) (p : AccountPatch) : Account :=
  { id := p.id.getD account.id
    name := p.name.getD account.name
    username := p.username.getD account.username
    authType := p.authType.getD account.authType
    authCredentials := p.authCredentials.getD account.authCredentials
    remember := p.remember.getD account.remember
    active := p.active.getD account.active }

/-- Spread merge of a patch over the stats snapshot:
{ ...currentStats, ...patch }. -/
def mergeStat (s : Stat) (p : StatPatch) : Stat :=
  { id := p.id.getD s.id
    date := p.date.getD s.date
    activeFarms := p.activeFarms.getD s.activeFarms
    pointsClaimed := p.pointsClaimed.getD s.pointsClaimed
    watchHours := p.watchHours.getD s.watchHours
    predictionRate := p.predictionRate.getD s.predictionRate }

/-- The MemStorage state: the four entity collections, the next-id
counters, and the ambient clock supplying new Date() values. -/
structure MemStorage where
  users : List (Nat × User)
  accounts : List (Nat × Account)
  farms : List (Nat × Farm)
  logs : List Log
  currentStats : Option Stat
  currentUserId : Nat
  currentAccountId : Nat
  currentFarmId : Nat
  currentLogId : Nat
  clock : Nat
deriving DecidableEq

/-- The freshly constructed MemStorage: empty collections, counters at 1,
and the initial stats snapshot with every counter at zero. -/
def initialStorage : MemStorage :=
  { users := []
    accounts := []
    farms := []
    logs := []
    currentStats := some
      { id := 1, date := 0, activeFarms := 0, pointsClaimed := 0
        watchHours := 0, predictionRate := 0 }
    currentUserId := 1
    currentAccountId := 1
    currentFarmId := 1
    currentLogId := 1
    clock := 0 }

/-! ## Entity store operations (server/storage.ts) -/

/-- MemStorage.createUser. -/
def createUser (st : MemStorage) (ins : InsertUser) : User × MemStorage :=
  let id := st.currentUserId
  let user : User := { id := id, username := ins.username, password := ins.password }
  (user, { st with users := mapSet st.users id user, currentUserId := id + 1 })

/-- MemStorage.createAccount: assigns the next account id and forces
active to true. -/
def createAccount (st : MemStorage) (ins : InsertAccount) : Account × MemStorage :=
  let id := st.currentAccountId
  let account : Account :=
    { id := id, name := ins.name, username := ins.username, authType := ins.authType
      authCredentials := ins.authCredentials, remember := ins.remember, active := true }
  (account, { st with accounts := mapSet st.accounts id account, currentAccountId := id + 1 })

/-- MemStorage.updateAccount: spread merge over the stored record, or an
explicit not-found result. -/
def updateAccount (st : MemStorage) (id : Nat) (p : AccountPatch) :
    Option Account × MemStorage :=
  match mapGet st.accounts id with
  | none => (none, st)
  | some account =>
    let updated := mergeAccount account p
    (some updated, { st with accounts := mapSet st.accounts id updated })

/-- MemStorage.getFarmsByAccountId: values in insertion order filtered by
owning account. -/
def getFarmsByAccountId (st : MemStorage) (accountId : Nat) : List Farm :=
  (st.farms.map Prod.snd).filter (fun farm => farm.accountId == accountId)

/-- MemStorage.createFarm: assigns the next farm id, fills the derived
defaults, and increments Stat.activeFarms when the stats snapshot is
present. -/
def createFarm (st : MemStorage) (ins : InsertFarm) : Farm × MemStorage :=
  let id := st.currentFarmId
  let farm : Farm :=
    { id := id, accountId := ins.accountId, channelName := ins.channelName
      channelId := "", profileImage := "", status := "active"
      uptime := 0, pointsClaimed := 0, watchTime := 0, enabled := true
      features := ins.features, predictionSettings := ins.predictionSettings
      lastActivity := st.clock }
  let stats1 := match st.currentStats with
    | some s => some { s with activeFarms := s.activeFarms + 1 }
    | none => none
  (farm,
    { st with farms := mapSet st.farms id farm, currentFarmId := id + 1
              currentStats := stats1 })

/-- MemStorage.updateFarm: spread merge over the stored record, or an
explicit not-found result. -/
def updateFarm (st : MemStorage) (id : Nat) (p : FarmPatch) : Option Farm × MemStorage :=
  match mapGet st.farms id with
  | none => (none, st)
  | some farm =>
    let updated := mergeFarm farm p
    (some updated, { st with farms := mapSet st.farms id updated })

/-- MemStorage.deleteFarm: decrements Stat.activeFarms when the farm and
the stats snapshot are both present, then deletes the entry, returning
whether it existed. -/
def deleteFarm (st : MemStorage) (id : Nat) : Bool × MemStorage :=
  let stats1 := match mapGet st.farms id, st.currentStats with
    | some _, some s => some { s with activeFarms := s.activeFarms - 1 }
    | _, _ => st.currentStats
  (mapHas st.farms id,
    { st with currentStats := stats1, farms := mapErase st.farms id })

/-- MemStorage.deleteAccount: deletes every farm owned by the account
(each through deleteFarm), then deletes the account itself, returning
whether the account existed. -/
def deleteAccount (st : MemStorage) (id : Nat) : Bool × MemStorage :=
  let accountFarms := getFarmsByAccountId st id
  let st1 := accountFarms.foldl (fun s farm => (deleteFarm s farm.id).2) st
  (mapHas st1.accounts id, { st1 with accounts := mapErase st1.accounts id })

/-- The tail slice this.logs.slice(-limit).  JavaScript evaluates -0 as 0,
so a limit of 0 slices from index 0 and keeps the whole array; a positive
limit keeps the last limit entries. -/
def jsSliceLast {α : Type} (l : List α) (limit : Nat) : List α :=
  if limit = 0 then l else l.drop (l.length - limit)

/-- MemStorage.getLogs: the last limit entries, most recent first. -/
def getLogs (st : MemStorage) (limit : Nat) : List Log :=
  (jsSliceLast st.logs limit).reverse

/-- One event on the log-sink path, in the order createLog performs them:
the webhook forward attempt, the catch-and-report of a failed forward,
and the push onto the retained sequence. -/
inductive SinkEvent
| forward
| report
| append
deriving DecidableEq

/-- sendDiscordLog (server/discord-logger.ts): attempts the webhook POST;
a rejected fetch is caught inside the function and reported to the
operational console, and is never re-raised.  The deliveryOk argument
injects whether the POST succeeds; the returned event list records what
the call did. -/
def sendDiscordLogEvents (deliveryOk : Bool) : List SinkEvent :=
  SinkEvent.forward :: (if deliveryOk then [] else [SinkEvent.report])

/-- MemStorage.createLog: assigns the next log id, stamps the creation
time, awaits sendDiscordLog, pushes the entry, and evicts the oldest
entries whenever more than 1000 are retained.  The result carries the
created log, the new state, and the ordered events of the call; the
deliveryOk argument injects the webhook outcome. -/
def createLog (st : MemStorage) (ins : InsertLog) (deliveryOk : Bool) :
    (Log × MemStorage) × List SinkEvent :=
  let id := st.currentLogId
  let log : Log :=
    { id := id, timestamp := st.clock, accountId := ins.accountId
      accountName := ins.accountName, channelId := ins.channelId
      channelName := ins.channelName, event := ins.event
      status := ins.status, details := ins.details }
  let sinkEvents := sendDiscordLogEvents deliveryOk
  let pushed := st.logs ++ [log]
  let logs1 := if pushed.length > 1000 then pushed.drop (pushed.length - 1000) else pushed
  ((log, { st with logs := logs1, currentLogId := id + 1 }),
    sinkEvents ++ [SinkEvent.append])

/-- MemStorage.updateStats: spread merge over the snapshot, or an
explicit not-found result when no snapshot exists. -/
def updateStats (st : MemStorage) (p : StatPatch) : Option Stat × MemStorage :=
  match st.currentStats with
  | none => (none, st)
  | some s =>
    let updated := mergeStat s p
    (some updated, { st with currentStats := some updated })

/-! ## Reachable states -/

/-- One storage operation of the kinds the reachability claim ranges
over. -/
inductive Op
| createAccount (ins : InsertAccount)
| createFarm (ins : InsertFarm)
| updateFarm (id : Nat) (p : FarmPatch)
| deleteFarm (id : Nat)
| deleteAccount (id : Nat)
| createLog (ins : InsertLog) (deliveryOk : Bool)
| updateStats (p : StatPatch)
deriving DecidableEq

/-- Apply one operation to the store state. -/
def applyOp (st : MemStorage) : Op → MemStorage
| Op.createAccount ins => (createAccount st ins).2
| Op.createFarm ins => (createFarm st ins).2
| Op.updateFarm id p => (updateFarm st id p).2
| Op.deleteFarm id => (deleteFarm st id).2
| Op.deleteAccount id => (deleteAccount st id).2
| Op.createLog ins deliveryOk => (createLog st ins deliveryOk).1.2
| Op.updateStats p => (updateStats st p).2

/-- The state reached by a sequence of operations from the freshly
constructed store. -/
def run (ops : List Op) : MemStorage :=
  ops.foldl applyOp initialStorage

/-! ## Log sink iteration -/

/-- The log record createLog builds for the i-th insert when the ambient
clock reads 0, as it does throughout a run from the fresh store. -/
def stampedLog (id : Nat) (ins : InsertLog) : Log :=
  { id := id, timestamp := 0, accountId := ins.accountId
    accountName := ins.accountName, channelId := ins.channelId
    channelName := ins.channelName, event := ins.event
    status := ins.status, details := ins.details }

/-- The store after N sequential createLog calls on the fresh store,
appending the i-th insert with the i-th delivery outcome. -/
def appendLogs (N : Nat) (f : Nat → InsertLog) (d : Nat → Bool) : MemStorage :=
  (List.range N).foldl (fun st i => ((createLog st (f i) (d i)).1).2) initialStorage

/-- All N log records those calls create, in insertion order, with their
sequentially assigned ids 1..N. -/
def allLogs (N : Nat) (f : Nat → InsertLog) : List Log :=
  (List.range N).map (fun i => stampedLog (i + 1) (f i))

/-- Index of the first occurrence of an event in a trace (the trace
length when absent). -/
def firstIdx (e : SinkEvent) : List SinkEvent → Nat
| [] => 0
| x :: xs => if x = e then 0 else firstIdx e xs + 1

/-! ## Concrete inputs used by counterexamples and witnesses -/

/-- Two outcomes tied on totalUsers, the first one listed first. -/
def tiedOutcomeA : Outcome := ⟨"A", "Yes", "blue", 500, 7⟩

/-- The second tied outcome. -/
def tiedOutcomeB : Outcome := ⟨"B", "No", "pink", 300, 7⟩

/-- A prediction whose two outcomes tie on totalUsers. -/
def tiedPrediction : TwitchPrediction :=
  ⟨"p2", "coin flip", [tiedOutcomeA, tiedOutcomeB], "ACTIVE"⟩

/-- A three-outcome prediction with a repeated maximal totalUsers. -/
def majorityDemoPrediction : TwitchPrediction :=
  ⟨"p3", "three way",
    [⟨"X", "x", "blue", 10, 2⟩, ⟨"Y", "y", "pink", 20, 5⟩, ⟨"Z", "z", "gray", 30, 5⟩],
    "ACTIVE"⟩

/-- The specification's worked scenario, outcome A: 8000 points, 100
users. -/
def scenarioOutcomeA : Outcome := ⟨"A", "Yes", "blue", 8000, 100⟩

/-- The specification's worked scenario, outcome B: 2000 points, 50
users. -/
def scenarioOutcomeB : Outcome := ⟨"B", "No", "pink", 2000, 50⟩

/-- The specification's worked scenario prediction. -/
def scenarioPrediction : TwitchPrediction :=
  ⟨"p1", "who wins", [scenarioOutcomeA, scenarioOutcomeB], "ACTIVE"⟩

/-- An outcome whose backing pool is empty. -/
def zeroPointsOutcome : Outcome := ⟨"a", "Yes", "blue", 0, 3⟩

/-- A prediction containing the empty-pool outcome next to a funded
one. -/
def zeroPointsPrediction : TwitchPrediction :=
  ⟨"pz", "edge case", [zeroPointsOutcome, ⟨"b", "No", "pink", 100, 5⟩], "ACTIVE"⟩

/-- A representative log insert. -/
def demoLogIns : InsertLog :=
  ⟨1, "Main", "", "coolchannel", "Started farming channel coolchannel", "success",
    some "Enabled features: claimPoints"⟩

/-- The fresh store after one appended log entry. -/
def oneLogStorage : MemStorage := ((createLog initialStorage demoLogIns true).1).2

/-- A representative account insert. -/
def demoAccount : InsertAccount := ⟨"Main", "streamer1", "cookie", "blob", false⟩

/-- A representative feature set. -/
def demoFeatures : Features := ⟨true, true, false, false⟩

/-- Representative prediction settings. -/
def demoSettings : PredictionSettings := ⟨Strategy.majority, 1000, false⟩

/-- A representative farm insert owned by account 1. -/
def demoFarmIns : InsertFarm := ⟨1, "coolchannel", demoFeatures, demoSettings⟩

/-- A stats patch that rewrites activeFarms directly. -/
def activeFarmsPatch : StatPatch := { activeFarms := some 1 }

/-- A stats patch of the shape the routes actually send: only
predictionRate. -/
def safeStatsPatch : StatPatch := { predictionRate := some 50 }

/-- An operation sequence exercising creation, update, deletion and a
predictionRate-only stats update. -/
def demoOps : List Op :=
  [Op.createAccount demoAccount, Op.createFarm demoFarmIns, Op.createFarm demoFarmIns,
    Op.deleteFarm 1, Op.updateStats safeStatsPatch]

/-- A stored account with id 1. -/
def wAccount1 : Account := ⟨1, "Main", "u1", "cookie", "c", false, true⟩

/-- A stored account with id 2. -/
def wAccount2 : Account := ⟨2, "Alt", "u2", "oauth", "t", false, true⟩

/-- A farm owned by account 1. -/
def wFarm1 : Farm := ⟨1, 1, "chanA", "", "", "active", 0, 0, 0, true, demoFeatures, demoSettings, 0⟩

/-- A farm owned by account 2. -/
def wFarm2 : Farm := ⟨2, 2, "chanB", "", "", "active", 0, 0, 0, true, demoFeatures, demoSettings, 0⟩

/-- A second farm owned by account 1. -/
def wFarm3 : Farm := ⟨3, 1, "chanC", "", "", "active", 0, 0, 0, true, demoFeatures, demoSettings, 0⟩

/-- A store holding two accounts and three farms, two of them owned by
account 1. -/
def cascadeStore : MemStorage :=
  { users := []
    accounts := [(1, wAccount1), (2, wAccount2)]
    farms := [(1, wFarm1), (2, wFarm2), (3, wFarm3)]
    logs := []
    currentStats := some { id := 1, date := 0, activeFarms := 3, pointsClaimed := 0
                           watchHours := 0, predictionRate := 0 }
    currentUserId := 1
    currentAccountId := 3
    currentFarmId := 4
    currentLogId := 1
    clock := 0 }

/-! ## Association-list map lemmas -/

theorem mapGet_none_iff_mapHas {α : Type} (m : List (Nat × α)) (k : Nat) :
    mapGet m k = none ↔ mapHas m k = false := by
  induction m with
  | nil => simp [mapGet, mapHas]
  | cons p rest ih =>
    cases hb : (p.1 == k) <;>
      simp [mapGet, mapHas, List.find?_cons, List.any_cons, hb]

theorem mapErase_of_mapHas_false {α : Type} (m : List (Nat × α)) (k : Nat)
    (h : mapHas m k = false) : mapErase m k = m := by
  induction m with
  | nil => rfl
  | cons p rest ih =>
    simp only [mapHas, List.any_cons, Bool.or_eq_false_iff, beq_eq_false_iff_ne] at h
    simp only [mapErase, if_neg h.1]
    rw [ih (by simp [mapHas, h.2])]

theorem mapGet_of_mem_nodup {α : Type} (m : List (Nat × α)) (k : Nat) (v : α)
    (hnd : (m.map Prod.fst).Nodup) (h : (k, v) ∈ m) : mapGet m k = some v := by
  induction m with
  | nil => cases h
  | cons p rest ih =>
    simp only [List.map_cons, List.nodup_cons] at hnd
    rcases List.mem_cons.1 h with h1 | h1
    · subst h1; simp [mapGet, List.find?_cons]
    · have hne : p.1 ≠ k := by
        intro he
        exact hnd.1 (he ▸ (List.mem_map.2 ⟨(k, v), h1, rfl⟩))
      have hb : (p.1 == k) = false := beq_eq_false_iff_ne.2 hne
      simpa [mapGet, List.find?_cons, hb] using ih hnd.2 h1

theorem mapErase_eq_filter_of_nodup {α : Type} (m : List (Nat × α)) (k : Nat)
    (hnd : (m.map Prod.fst).Nodup) :
    mapErase m k = m.filter (fun kv => !(kv.1 == k)) := by
  induction m with
  | nil => rfl
  | cons p rest ih =>
    simp only [List.map_cons, List.nodup_cons] at hnd
    by_cases he : p.1 = k
    · subst he
      have : rest.filter (fun kv => !(kv.1 == p.1)) = rest := by
        apply List.filter_eq_self.2
        intro kv hkv
        simp only [Bool.not_eq_eq_eq_not, Bool.not_true, beq_eq_false_iff_ne]
        intro hk
        exact hnd.1 (hk ▸ (List.mem_map.2 ⟨kv, hkv, rfl⟩))
      simp [mapErase, List.filter_cons, this]
    · have hb : (p.1 == k) = false := beq_eq_false_iff_ne.2 he
      simp [mapErase, List.filter_cons, he, hb, ih hnd.2]

theorem mem_of_mem_mapErase {α : Type} {m : List (Nat × α)} {k : Nat} {kv : Nat × α}
    (h : kv ∈ mapErase m k) : kv ∈ m := by
  induction m with
  | nil => cases h
  | cons p rest ih =>
    by_cases he : p.1 = k
    · exact List.mem_cons_of_mem p (by simpa [mapErase, he] using h)
    · rcases List.mem_cons.1 (by simpa [mapErase, he] using h) with h1 | h1
      · exact h1 ▸ List.mem_cons_self p rest
      · exact List.mem_cons_of_mem p (ih h1)

theorem mem_mapSet {α : Type} {m : List (Nat × α)} {k : Nat} {v : α} {kv : Nat × α}
    (h : kv ∈ mapSet m k v) : kv ∈ m ∨ kv = (k, v) := by
  induction m with
  | nil => simpa [mapSet] using h
  | cons p rest ih =>
    by_cases he : p.1 = k
    · rcases List.mem_cons.1 (by simpa [mapSet, he] using h) with h1 | h1
      · exact Or.inr h1
      · exact Or.inl (List.mem_cons_of_mem p h1)
    · rcases List.mem_cons.1 (by simpa [mapSet, he] using h) with h1 | h1
      · exact Or.inl (h1 ▸ List.mem_cons_self p rest)
      · rcases ih h1 with h2 | h2
        · exact Or.inl (List.mem_cons_of_mem p h2)
        · exact Or.inr h2

theorem length_mapSet_of_mapHas_false {α : Type} (m : List (Nat × α)) (k : Nat) (v : α)
    (h : mapHas m k = false) : (mapSet m k v).length = m.length + 1 := by
  induction m with
  | nil => rfl
  | cons p rest ih =>
    simp only [mapHas, List.any_cons, Bool.or_eq_false_iff, beq_eq_false_iff_ne] at h
    simp [mapSet, if_neg h.1, ih (by simp [mapHas, h.2])]

theorem length_mapSet_of_mapHas_true {α : Type} (m : List (Nat × α)) (k : Nat) (v : α)
    (h : mapHas m k = true) : (mapSet m k v).length = m.length := by
  induction m with
  | nil => simp [mapHas] at h
  | cons p rest ih =>
    by_cases he : p.1 = k
    · simp [mapSet, he]
    · have hb : (p.1 == k) = false := beq_eq_false_iff_ne.2 he
      simp only [mapHas, List.any_cons, hb, Bool.false_or] at h
      simp [mapSet, if_neg he, ih h]

theorem length_mapErase_of_mapHas_true {α : Type} (m : List (Nat × α)) (k : Nat)
    (h : mapHas m k = true) : (mapErase m k).length + 1 = m.length := by
  induction m with
  | nil => simp [mapHas] at h
  | cons p rest ih =>
    by_cases he : p.1 = k
    · simp [mapErase, he]
    · have hb : (p.1 == k) = false := beq_eq_false_iff_ne.2 he
      simp only [mapHas, List.any_cons, hb, Bool.false_or] at h
      simp [mapErase, if_neg he, ih h]

theorem mapHas_of_mapGet_some {α : Type} {m : List (Nat × α)} {k : Nat} {v : α}
    (h : mapGet m k = some v) : mapHas m k = true := by
  by_contra hc
  rw [(mapGet_none_iff_mapHas m k).2 (Bool.eq_false_iff.2 hc)] at h
  cases h

theorem mem_of_mapGet_some {α : Type} {m : List (Nat × α)} {k : Nat} {v : α}
    (h : mapGet m k = some v) : (k, v) ∈ m := by
  induction m with
  | nil => cases h
  | cons p rest ih =>
    cases hb : (p.1 == k) with
    | false =>
      exact List.mem_cons_of_mem p (ih (by simpa [mapGet, List.find?_cons, hb] using h))
    | true =>
      have h1 : some p.2 = some v := by simpa [mapGet, List.find?_cons, hb] using h
      have h2 : p.1 = k := by simpa using hb
      have h3 : (k, v) = p := by
        obtain rfl : v = p.2 := (Option.some_inj.1 h1).symm
        obtain rfl : k = p.1 := h2.symm
        rfl
      exact List.mem_cons.2 (Or.inl h3)

theorem mapHas_false_of_keys_bound {α : Type} (m : List (Nat × α)) (k : Nat)
    (h : ∀ kv ∈ m, kv.1 ≠ k) : mapHas m k = false := by
  induction m with
  | nil => rfl
  | cons p rest ih =>
    have hb : (p.1 == k) = false := beq_eq_false_iff_ne.2 (h p (List.mem_cons_self p rest))
    simp only [mapHas, List.any_cons, hb, Bool.false_or]
    exact ih (fun kv hkv => h kv (List.mem_cons_of_mem p hkv))

theorem eq_of_mem_of_same_key_nodup {α : Type} {m : List (Nat × α)} {kv1 kv2 : Nat × α}
    (hnd : (m.map Prod.fst).Nodup) (h1 : kv1 ∈ m) (h2 : kv2 ∈ m) (hk : kv1.1 = kv2.1) :
    kv1 = kv2 := by
  induction m with
  | nil => cases h1
  | cons p rest ih =>
    simp only [List.map_cons, List.nodup_cons] at hnd
    rcases List.mem_cons.1 h1 with ha | ha <;> rcases List.mem_cons.1 h2 with hb | hb
    · rw [ha, hb]
    · exact absurd (hk ▸ (List.mem_map.2 ⟨kv2, hb, rfl⟩) : kv1.1 ∈ rest.map Prod.fst)
        (ha ▸ hnd.1)
    · exact absurd (hk ▸ (List.mem_map.2 ⟨kv1, ha, rfl⟩ : kv1.1 ∈ rest.map Prod.fst))
        (hb ▸ hnd.1)
    · exact ih hnd.2 ha hb

/-! ## C10: deleting an absent farm leaves the state unchanged -/

theorem deleteFarm_absent_eq (st : MemStorage) (id : Nat)
    (h : mapGet st.farms id = none) :
    deleteFarm st id = (false, st) := by
  have hh : mapHas st.farms id = false := (mapGet_none_iff_mapHas _ _).1 h
  unfold deleteFarm
  rw [h, mapErase_of_mapHas_false _ _ hh, hh]

/-- C10: for an id with no stored farm, deleteFarm returns false, removes
nothing, and does not touch Stat.activeFarms: the whole state is
unchanged. -/
theorem deleteFarm_missing_noop (st : MemStorage) (id : Nat)
    (h : mapGet st.farms id = none) :
    deleteFarm st id = (false, st) :=
  deleteFarm_absent_eq st id h

/-- C10 witness: the fresh store holds no farm 1, and deleting it is a
no-op returning false. -/
theorem deleteFarm_missing_noop_witness :
    mapGet initialStorage.farms 1 = none ∧
    deleteFarm initialStorage 1 = (false, initialStorage) :=
  ⟨rfl, deleteFarm_missing_noop initialStorage 1 rfl⟩

/-! ## C9: getLogs ordering and truncation -/

/-- C9 (amended): for every positive limit, getLogs returns the retained
entries most recent first, truncated to the limit; the original claim
fails at limit 0, where slice(-0) keeps the whole array. -/
theorem getLogs_recent_first (st : MemStorage) (limit : Nat) (h : 0 < limit) :
    getLogs st limit = st.logs.reverse.take limit ∧
    (getLogs st limit).length ≤ limit := by
  have hz : limit ≠ 0 := Nat.pos_iff_ne_zero.1 h
  have hmain : getLogs st limit = st.logs.reverse.take limit := by
    unfold getLogs jsSliceLast
    rw [if_neg hz, List.reverse_drop]
    by_cases hle : limit ≤ st.logs.length
    · congr 1
      omega
    · have h1 : st.logs.length - (st.logs.length - limit) = st.logs.length := by omega
      rw [h1, ← List.length_reverse, List.take_length,
        List.take_of_length_le (by simpa using Nat.le_of_lt (Nat.lt_of_not_le hle))]
  refine ⟨hmain, ?_⟩
  rw [hmain]
  exact List.length_take_le limit st.logs.reverse

/-- C9 witness: with one retained entry and limit 5 the theorem applies,
and the result is that entry alone. -/
theorem getLogs_recent_first_witness :
    (0 < 5) ∧
    (getLogs oneLogStorage 5 = oneLogStorage.logs.reverse.take 5 ∧
      (getLogs oneLogStorage 5).length ≤ 5) :=
  ⟨by decide, getLogs_recent_first oneLogStorage 5 (by decide)⟩

/-- C9 counterexample: with one retained entry, getLogs 0 returns that
entry rather than the empty list, because slice(-0) is slice(0). -/
theorem getLogs_zero_counterexample :
    oneLogStorage.logs.length = 1 ∧
    (getLogs oneLogStorage 0).length = 1 ∧
    ¬ ((getLogs oneLogStorage 0).length ≤ 0) := by
  refine ⟨rfl, rfl, by decide⟩

/-! ## C8: order of the webhook forward and the append -/

/-- C8 counterexample: in a concrete createLog call the event trace is
the forward followed by the append, so the claimed order (append first,
forward only afterwards) fails; it also fails when delivery errors. -/
theorem createLog_append_first_counterexample :
    (createLog initialStorage demoLogIns true).2 = [SinkEvent.forward, SinkEvent.append] ∧
    ¬ (firstIdx SinkEvent.append (createLog initialStorage demoLogIns true).2 <
        firstIdx SinkEvent.forward (createLog initialStorage demoLogIns true).2) ∧
    ¬ (firstIdx SinkEvent.append (createLog initialStorage demoLogIns false).2 <
        firstIdx SinkEvent.forward (createLog initialStorage demoLogIns false).2) := by
  refine ⟨rfl, by decide, by decide⟩

/-- C8 (amended): createLog forwards the entry to the notification
collaborator BEFORE appending it; the forward failure is caught inside
sendDiscordLog and only reported, never re-raised, so the created log,
the resulting state, and the fact that the append happens last are all
identical whether or not delivery succeeds, and the appended entry ends
the retained sequence. -/
theorem createLog_forwards_then_appends (st : MemStorage) (ins : InsertLog)
    (deliveryOk : Bool) :
    (createLog st ins deliveryOk).1 = (createLog st ins true).1 ∧
    (createLog st ins deliveryOk).2 = sendDiscordLogEvents deliveryOk ++ [SinkEvent.append] ∧
    firstIdx SinkEvent.forward (createLog st ins deliveryOk).2 <
      firstIdx SinkEvent.append (createLog st ins deliveryOk).2 ∧
    ((createLog st ins deliveryOk).1.2).logs.getLast? =
      some ((createLog st ins deliveryOk).1.1) := by
  refine ⟨rfl, rfl, ?_, ?_⟩
  · cases deliveryOk <;> simp [createLog, sendDiscordLogEvents, firstIdx]
  · show (if (st.logs ++ [_]).length > 1000
        then (st.logs ++ [_]).drop ((st.logs ++ [_]).length - 1000)
        else (st.logs ++ [_])).getLast? = _
    by_cases hlen : (st.logs.length + 1) > 1000
    · have hle : st.logs.length + 1 - 1000 ≤ st.logs.length := by omega
      rw [if_pos (by simpa using hlen)]
      rw [List.length_append, List.length_singleton,
        List.drop_append_of_le_length hle, List.getLast?_concat]
      rfl
    · rw [if_neg (by simpa using hlen), List.getLast?_concat]
      rfl

/-! ## C3 and C6: the payout computation -/

/-- C3 (amended): with a zero bet, calculatePayout returns 0 for every
valid outcomeId whose outcome has a nonzero pool; when the chosen
outcome's totalPoints is 0 the division by zero makes the result NaN
instead. -/
theorem calculatePayout_zero_bet (p : TwitchPrediction) (outcomeId : String) (o : Outcome)
    (h : p.outcomes.find? (fun x => x.id == outcomeId) = some o) :
    calculatePotentialWinnings p outcomeId 0 =
      (if o.totalPoints = 0 then JSNum.nan else JSNum.num 0) := by
  have hred : calculatePotentialWinnings p outcomeId 0 =
      jsFloor (jsAdd (jsMul (jsDiv
        (JSNum.num (p.outcomes.foldl (fun sum o2 => sum + o2.totalPoints) 0 - o.totalPoints))
        (JSNum.num (o.totalPoints + 0))) (JSNum.num 0)) (JSNum.num 0)) := by
    simp only [calculatePotentialWinnings, h]
  rw [hred, add_zero]
  by_cases h0 : o.totalPoints = 0
  · rw [if_pos h0, h0, sub_zero]
    rcases lt_trichotomy (p.outcomes.foldl (fun sum o2 => sum + o2.totalPoints) 0) 0
      with h1 | h1 | h1
    · simp [jsDiv, jsMul, jsAdd, jsFloor, h1.ne, not_lt.2 (le_of_lt h1)]
    · simp [jsDiv, jsMul, jsAdd, jsFloor, h1]
    · simp [jsDiv, jsMul, jsAdd, jsFloor, h1, h1.ne.symm]
  · rw [if_neg h0]
    simp [jsDiv, jsMul, jsAdd, jsFloor, h0]

/-- C3 counterexample: a valid outcomeId whose outcome holds 0 points
makes calculatePayout(prediction, outcomeId, 0) evaluate to NaN, not 0:
otherPoints / (0 + 0) is Infinity, times the 0 bet is NaN. -/
theorem calculatePayout_zero_bet_counterexample :
    (zeroPointsPrediction.outcomes.find? (fun x => x.id == "a")).isSome = true ∧
    calculatePotentialWinnings zeroPointsPrediction "a" 0 = JSNum.nan ∧
    JSNum.nan ≠ JSNum.num 0 := by
  refine ⟨rfl, ?_, by simp⟩
  norm_num [calculatePotentialWinnings, zeroPointsPrediction, zeroPointsOutcome,
    jsDiv, jsMul, jsAdd, jsFloor, List.find?]

/-- C3 witness: outcome B of the worked scenario holds 2000 points, and a
zero bet on it pays 0. -/
theorem calculatePayout_zero_bet_witness :
    scenarioPrediction.outcomes.find? (fun x => x.id == "B") = some scenarioOutcomeB ∧
    calculatePotentialWinnings scenarioPrediction "B" 0 = JSNum.num 0 := by
  have h1 : scenarioPrediction.outcomes.find? (fun x => x.id == "B") = some scenarioOutcomeB :=
    rfl
  have h2 := calculatePayout_zero_bet scenarioPrediction "B" scenarioOutcomeB h1
  refine ⟨h1, ?_⟩
  rw [h2]
  norm_num [scenarioOutcomeB]

/-- C6: calculatePayout returns 0 when the outcomeId is absent, and
otherwise (whenever the divisor outcomePoints + betAmount is nonzero, so
that the claimed real-valued formula denotes) it returns
floor((otherPoints / (outcomePoints + betAmount)) * betAmount + betAmount)
with otherPoints the total pool minus the chosen outcome's pool. -/
theorem calculatePayout_formula (p : TwitchPrediction) (outcomeId : String) (bet : ℚ) :
    (p.outcomes.find? (fun o => o.id == outcomeId) = none →
      calculatePotentialWinnings p outcomeId bet = JSNum.num 0) ∧
    (∀ o, p.outcomes.find? (fun o2 => o2.id == outcomeId) = some o →
      o.totalPoints + bet ≠ 0 →
      calculatePotentialWinnings p outcomeId bet =
        JSNum.num ((payoutSpec o.totalPoints (sumTotalPoints p.outcomes - o.totalPoints) bet :
          ℤ) : ℚ)) := by
  constructor
  · intro h
    unfold calculatePotentialWinnings
    rw [h]
  · intro o h hden
    have hred : calculatePotentialWinnings p outcomeId bet =
        jsFloor (jsAdd (jsMul (jsDiv
          (JSNum.num (p.outcomes.foldl (fun sum o2 => sum + o2.totalPoints) 0 - o.totalPoints))
          (JSNum.num (o.totalPoints + bet))) (JSNum.num bet)) (JSNum.num bet)) := by
      simp only [calculatePotentialWinnings, h]
    rw [hred]
    simp [jsDiv, jsMul, jsAdd, jsFloor, hden, payoutSpec, sumTotalPoints]

/-- C6 witness: the worked example — on outcomes A:8000 and B:2000, a
1000-point bet on B pays floor((8000 / 3000) * 1000 + 1000) = 3666. -/
theorem calculatePayout_formula_witness :
    scenarioPrediction.outcomes.find? (fun o2 => o2.id == "B") = some scenarioOutcomeB ∧
    scenarioOutcomeB.totalPoints + 1000 ≠ 0 ∧
    calculatePotentialWinnings scenarioPrediction "B" 1000 = JSNum.num 3666 := by
  have h1 : scenarioPrediction.outcomes.find? (fun o2 => o2.id == "B") = some scenarioOutcomeB :=
    rfl
  have h2 : scenarioOutcomeB.totalPoints + 1000 ≠ (0 : ℚ) := by
    norm_num [scenarioOutcomeB]
  have h3 := (calculatePayout_formula scenarioPrediction "B" 1000).2 scenarioOutcomeB h1 h2
  have h4 : payoutSpec scenarioOutcomeB.totalPoints
      (sumTotalPoints scenarioPrediction.outcomes - scenarioOutcomeB.totalPoints) 1000 =
      3666 := by
    unfold payoutSpec
    rw [Int.floor_eq_iff]
    constructor <;>
      norm_num [sumTotalPoints, scenarioPrediction, scenarioOutcomeA, scenarioOutcomeB]
  refine ⟨h1, h2, ?_⟩
  rw [h3, h4]
  norm_num

/-! ## C2: the majority strategy -/

/-- The reduce of the majority branch keeps the accumulator only while it
is strictly larger, so it lands on the LAST occurrence of the maximal
totalUsers: the list splits as pre ++ x :: post with everything before x
at most x and everything after x strictly below it. -/
theorem foldl_majority_decomp (rest : List Outcome) :
    ∀ a : Outcome, ∃ pre x post,
      a :: rest = pre ++ x :: post ∧
      List.foldl (fun prev current =>
        if prev.totalUsers > current.totalUsers then prev else current) a rest = x ∧
      (∀ y ∈ pre, y.totalUsers ≤ x.totalUsers) ∧
      (∀ y ∈ post, y.totalUsers < x.totalUsers) := by
  induction rest with
  | nil =>
    intro a
    exact ⟨[], a, [], rfl, rfl, by simp, by simp⟩
  | cons b rs ih =>
    intro a
    by_cases hab : a.totalUsers > b.totalUsers
    · obtain ⟨pre, x, post, hdec, hres, hpre, hpost⟩ := ih a
      have hstep : List.foldl (fun prev current =>
          if prev.totalUsers > current.totalUsers then prev else current) a (b :: rs) =
          List.foldl (fun prev current =>
            if prev.totalUsers > current.totalUsers then prev else current) a rs := by
        simp [List.foldl_cons, if_pos hab]
      cases pre with
      | nil =>
        have hsplit : a = x ∧ rs = post := by
          have h2 := hdec
          simp only [List.nil_append, List.cons.injEq] at h2
          exact h2
        refine ⟨[], x, b :: rs, by rw [hsplit.1]; rfl, by rw [hstep, hres], by simp, ?_⟩
        intro y hy
        rcases List.mem_cons.1 hy with rfl | hy2
        · exact hsplit.1 ▸ hab
        · exact hpost y (hsplit.2 ▸ hy2)
      | cons p0 pre2 =>
        have hsplit : p0 = a ∧ rs = pre2 ++ x :: post := by
          have h2 := hdec
          simp only [List.cons_append, List.cons.injEq] at h2
          exact ⟨h2.1.symm, h2.2⟩
        have hax : a.totalUsers ≤ x.totalUsers :=
          hsplit.1 ▸ hpre p0 (List.mem_cons_self p0 pre2)
        refine ⟨a :: b :: pre2, x, post, by rw [hsplit.2]; rfl, by rw [hstep, hres], ?_,
          hpost⟩
        intro y hy
        rcases List.mem_cons.1 hy with rfl | hy2
        · exact hax
        · rcases List.mem_cons.1 hy2 with rfl | hy3
          · exact le_of_lt (lt_of_lt_of_le hab hax)
          · exact hpre y (List.mem_cons_of_mem p0 hy3)
    · obtain ⟨pre, x, post, hdec, hres, hpre, hpost⟩ := ih b
      have hstep : List.foldl (fun prev current =>
          if prev.totalUsers > current.totalUsers then prev else current) a (b :: rs) =
          List.foldl (fun prev current =>
            if prev.totalUsers > current.totalUsers then prev else current) b rs := by
        simp [List.foldl_cons, if_neg hab]
      have hbx : b.totalUsers ≤ x.totalUsers := by
        cases pre with
        | nil =>
          have hsplit : b = x ∧ rs = post := by
            have h2 := hdec
            simp only [List.nil_append, List.cons.injEq] at h2
            exact h2
          exact le_of_eq (by rw [hsplit.1])
        | cons p0 pre2 =>
          have hp0 : p0 = b := by
            have h2 := hdec
            simp only [List.cons_append, List.cons.injEq] at h2
            exact h2.1.symm
          exact hp0 ▸ hpre p0 (List.mem_cons_self p0 pre2)
      refine ⟨a :: pre, x, post, by rw [List.cons_append, ← hdec], by rw [hstep, hres], ?_,
        hpost⟩
      intro y hy
      rcases List.mem_cons.1 hy with rfl | hy2
      · exact le_trans (not_lt.1 hab) hbx
      · exact hpre y hy2

/-- C2 (amended): with strategy majority, chooseOutcome returns the id of
the outcome with the largest totalUsers, and whenever two or more
outcomes tie for the largest totalUsers it returns the LAST such outcome
by list position (the reduce replaces its accumulator on ties). -/
theorem majority_returns_last_of_largest (rand : ℚ) (p : TwitchPrediction) (fav : Bool)
    (o : Outcome) (rest : List Outcome) (hp : p.outcomes = o :: rest) :
    ∃ pre x post, p.outcomes = pre ++ x :: post ∧
      determineBestPredictionOutcome rand p Strategy.majority fav = some x.id ∧
      (∀ y ∈ pre, y.totalUsers ≤ x.totalUsers) ∧
      (∀ y ∈ post, y.totalUsers < x.totalUsers) := by
  obtain ⟨pre, x, post, hdec, hres, hpre, hpost⟩ := foldl_majority_decomp rest o
  refine ⟨pre, x, post, by rw [hp, hdec], ?_, hpre, hpost⟩
  simp only [determineBestPredictionOutcome, hp, hres]

/-- C2 witness: on users 2, 5, 5 the majority strategy settles on the
last of the two tied leaders. -/
theorem majority_returns_last_of_largest_witness :
    majorityDemoPrediction.outcomes =
      ⟨"X", "x", "blue", 10, 2⟩ ::
        [⟨"Y", "y", "pink", 20, 5⟩, ⟨"Z", "z", "gray", 30, 5⟩] ∧
    (∃ pre x post, majorityDemoPrediction.outcomes = pre ++ x :: post ∧
      determineBestPredictionOutcome 0 majorityDemoPrediction Strategy.majority false =
        some x.id ∧
      (∀ y ∈ pre, y.totalUsers ≤ x.totalUsers) ∧
      (∀ y ∈ post, y.totalUsers < x.totalUsers)) :=
  ⟨rfl, majority_returns_last_of_largest 0 majorityDemoPrediction false _ _ rfl⟩

/-- C2 counterexample: two outcomes tied on totalUsers, A listed first;
the code returns B, the LAST tied outcome, not the first. -/
theorem majority_tie_counterexample :
    tiedPrediction.outcomes.map Outcome.totalUsers = [7, 7] ∧
    tiedPrediction.outcomes.map Outcome.id = ["A", "B"] ∧
    determineBestPredictionOutcome 0 tiedPrediction Strategy.majority false = some "B" ∧
    ("B" : String) ≠ "A" := by
  refine ⟨?_, rfl, ?_, by decide⟩
  · norm_num [tiedPrediction, tiedOutcomeA, tiedOutcomeB]
  · norm_num [determineBestPredictionOutcome, tiedPrediction, tiedOutcomeA, tiedOutcomeB]

/-! ## C5: the percentage strategy -/

/-- The head of the stable ascending sort is the leftmost entry of
minimal odds: the input splits as pre ++ x :: post with every entry of
pre strictly above x and every entry of post at least x. -/
theorem sortByOdds_head_decomp (l : List OddsEntry) (hl : l ≠ []) :
    ∃ x pre post t, l = pre ++ x :: post ∧
      sortByOdds l = x :: t ∧
      (∀ y ∈ pre, x.odds < y.odds) ∧
      (∀ y ∈ post, x.odds ≤ y.odds) := by
  induction l with
  | nil => cases hl rfl
  | cons a l2 ih =>
    cases l2 with
    | nil =>
      exact ⟨a, [], [], [], rfl, rfl, by simp, by simp⟩
    | cons b l3 =>
      obtain ⟨x2, pre2, post2, t2, hdec, hsort, hpre2, hpost2⟩ := ih (by simp)
      have hx2all : ∀ y ∈ b :: l3, x2.odds ≤ y.odds := by
        intro y hy
        rw [hdec] at hy
        rcases List.mem_append.1 hy with h1 | h1
        · exact le_of_lt (hpre2 y h1)
        · rcases List.mem_cons.1 h1 with rfl | h2
          · exact le_refl _
          · exact hpost2 y h2
      have hstep : sortByOdds (a :: b :: l3) = orderedInsertOdds a (x2 :: t2) := by
        rw [sortByOdds, hsort]
      by_cases hax : a.odds ≤ x2.odds
      · refine ⟨a, [], b :: l3, x2 :: t2, rfl, ?_, by simp, ?_⟩
        · rw [hstep, orderedInsertOdds, if_pos hax]
        · intro y hy
          exact le_trans hax (hx2all y hy)
      · refine ⟨x2, a :: pre2, post2, orderedInsertOdds a t2, by rw [hdec]; rfl, ?_, ?_,
          hpost2⟩
        · rw [hstep, orderedInsertOdds, if_neg hax]
        · intro y hy
          rcases List.mem_cons.1 hy with rfl | hy2
          · exact not_le.1 hax
          · exact hpre2 y hy2

/-- Splitting a mapped list pulls back to a splitting of the original
list. -/
theorem map_eq_append_cons_decomp {α β : Type} (f : α → β) :
    ∀ (l : List α) (pre : List β) (x : β) (post : List β),
      l.map f = pre ++ x :: post →
      ∃ pre0 x0 post0, l = pre0 ++ x0 :: post0 ∧ pre0.map f = pre ∧ f x0 = x ∧
        post0.map f = post := by
  intro l
  induction l with
  | nil =>
    intro pre x post h
    rw [List.map_nil] at h
    cases pre <;> cases h
  | cons a l2 ih =>
    intro pre x post h
    cases pre with
    | nil =>
      rw [List.map_cons, List.nil_append] at h
      injection h with h1 h2
      exact ⟨[], a, l2, rfl, rfl, h1, h2⟩
    | cons p ps =>
      rw [List.map_cons, List.cons_append] at h
      injection h with h1 h2
      obtain ⟨pre0, x0, post0, hd, hm1, hm2, hm3⟩ := ih ps x post h2
      exact ⟨a :: pre0, x0, post0, by rw [hd]; rfl,
        by rw [List.map_cons, hm1, h1], hm2, hm3⟩

/-- C5: with strategy percentage, chooseOutcome computes each outcome's
odds as totalPoints over the total (0 for every outcome when the total is
not positive), selects the outcome of minimum odds with ties broken by
first occurrence in list order, and returns noBet instead when
favorableOddsOnly is set and that minimum exceeds one half. -/
theorem percentage_returns_first_min_odds (rand : ℚ) (p : TwitchPrediction) (fav : Bool)
    (o : Outcome) (rest : List Outcome) (hp : p.outcomes = o :: rest) :
    ∃ pre x post, p.outcomes = pre ++ x :: post ∧
      (∀ y ∈ pre, outcomeOdds p.outcomes x < outcomeOdds p.outcomes y) ∧
      (∀ y ∈ p.outcomes, outcomeOdds p.outcomes x ≤ outcomeOdds p.outcomes y) ∧
      determineBestPredictionOutcome rand p Strategy.percentage fav =
        (if fav ∧ outcomeOdds p.outcomes x > 1 / 2 then none else some x.id) := by
  obtain ⟨x1, pre1, post1, t1, hdec, hsort, hpre1, hpost1⟩ :=
    sortByOdds_head_decomp ((o :: rest).map (fun outcome =>
      OddsEntry.mk outcome.id
        (if (o :: rest).foldl (fun sum outcome2 => sum + outcome2.totalPoints) 0 > 0 then
          outcome.totalPoints /
            (o :: rest).foldl (fun sum outcome2 => sum + outcome2.totalPoints) 0
        else 0))) (by simp)
  obtain ⟨pre0, x0, post0, hd0, hm1, hm2, hm3⟩ :=
    map_eq_append_cons_decomp _ (o :: rest) pre1 x1 post1 hdec
  have hodds : ∀ y : Outcome,
      (OddsEntry.mk y.id
        (if (o :: rest).foldl (fun sum outcome2 => sum + outcome2.totalPoints) 0 > 0 then
          y.totalPoints / (o :: rest).foldl (fun sum outcome2 => sum + outcome2.totalPoints) 0
        else 0)).odds = outcomeOdds (o :: rest) y := by
    intro y
    rfl
  have hx0odds : x1.odds = outcomeOdds (o :: rest) x0 := by
    rw [← hm2]
    exact hodds x0
  have hx0id : x1.id = x0.id := by rw [← hm2]
  refine ⟨pre0, x0, post0, by rw [hp, hd0], ?_, ?_, ?_⟩
  · intro y hy
    have h1 : x1.odds < (OddsEntry.mk y.id _).odds :=
      hpre1 _ (hm1 ▸ List.mem_map_of_mem _ hy)
    rw [hx0odds, hodds y] at h1
    simpa [hp] using h1
  · intro y hy
    rw [hp, hd0] at hy
    rcases List.mem_append.1 hy with h1 | h1
    · have h2 : x1.odds < (OddsEntry.mk y.id _).odds :=
        hpre1 _ (hm1 ▸ List.mem_map_of_mem _ h1)
      rw [hx0odds, hodds y] at h2
      simpa [hp] using le_of_lt h2
    · rcases List.mem_cons.1 h1 with rfl | h2
      · simp [hp]
      · have h3 : x1.odds ≤ (OddsEntry.mk y.id _).odds :=
          hpost1 _ (hm3 ▸ List.mem_map_of_mem _ h2)
        rw [hx0odds, hodds y] at h3
        simpa [hp] using h3
  · simp only [determineBestPredictionOutcome, hp, hsort, hx0id, hx0odds]

/-- C5 witness: on the worked scenario (odds 0.8 and 0.2) the theorem
applies with its two-outcome decomposition. -/
theorem percentage_returns_first_min_odds_witness :
    scenarioPrediction.outcomes = scenarioOutcomeA :: [scenarioOutcomeB] ∧
    (∃ pre x post, scenarioPrediction.outcomes = pre ++ x :: post ∧
      (∀ y ∈ pre,
        outcomeOdds scenarioPrediction.outcomes x < outcomeOdds scenarioPrediction.outcomes y) ∧
      (∀ y ∈ scenarioPrediction.outcomes,
        outcomeOdds scenarioPrediction.outcomes x ≤ outcomeOdds scenarioPrediction.outcomes y) ∧
      determineBestPredictionOutcome 0 scenarioPrediction Strategy.percentage false =
        (if false ∧ outcomeOdds scenarioPrediction.outcomes x > 1 / 2 then none
          else some x.id)) :=
  ⟨rfl, percentage_returns_first_min_odds 0 scenarioPrediction false scenarioOutcomeA
    [scenarioOutcomeB] rfl⟩

/-! ## C7: bounded retention of the log sink -/

theorem range'_drop (k : Nat) :
    ∀ (s n : Nat), (List.range' s n).drop k = List.range' (s + k) (n - k) := by
  induction k with
  | zero =>
    intro s n
    simp
  | succ k ih =>
    intro s n
    cases n with
    | zero => simp
    | succ m =>
      rw [List.range'_succ, List.drop_succ_cons, ih (s + 1) m]
      congr 1 <;> omega

theorem allLogs_succ (N : Nat) (f : Nat → InsertLog) :
    allLogs (N + 1) f = allLogs N f ++ [stampedLog (N + 1) (f N)] := by
  simp [allLogs, List.range_succ]

theorem allLogs_length (N : Nat) (f : Nat → InsertLog) : (allLogs N f).length = N := by
  simp [allLogs]

theorem allLogs_map_id (N : Nat) (f : Nat → InsertLog) :
    (allLogs N f).map Log.id = List.range' 1 N := by
  rw [List.range'_eq_map_range]
  simp only [allLogs, List.map_map]
  apply List.map_congr_left
  intro i _
  show i + 1 = 1 + i
  omega

theorem appendLogs_state (f : Nat → InsertLog) (d : Nat → Bool) :
    ∀ N, (appendLogs N f d).logs = (allLogs N f).drop (N - 1000) ∧
      (appendLogs N f d).currentLogId = N + 1 ∧
      (appendLogs N f d).clock = 0 := by
  intro N
  induction N with
  | zero => exact ⟨rfl, rfl, rfl⟩
  | succ N ih =>
    obtain ⟨hlogs, hid, hclock⟩ := ih
    have hstep : appendLogs (N + 1) f d =
        ((createLog (appendLogs N f d) (f N) (d N)).1).2 := by
      unfold appendLogs
      rw [List.range_succ, List.foldl_append]
      rfl
    have hnew : ({ id := (appendLogs N f d).currentLogId,
                   timestamp := (appendLogs N f d).clock, accountId := (f N).accountId,
                   accountName := (f N).accountName, channelId := (f N).channelId,
                   channelName := (f N).channelName, event := (f N).event,
                   status := (f N).status, details := (f N).details } : Log) =
        stampedLog (N + 1) (f N) := by
      rw [hid, hclock]
      rfl
    have hcreate : ((createLog (appendLogs N f d) (f N) (d N)).1).2 =
        { appendLogs N f d with
            logs :=
              (if ((appendLogs N f d).logs ++ [stampedLog (N + 1) (f N)]).length > 1000 then
                ((appendLogs N f d).logs ++ [stampedLog (N + 1) (f N)]).drop
                  (((appendLogs N f d).logs ++ [stampedLog (N + 1) (f N)]).length - 1000)
              else (appendLogs N f d).logs ++ [stampedLog (N + 1) (f N)]),
            currentLogId := (appendLogs N f d).currentLogId + 1 } := by
      rw [createLog, ← hnew]
    have hlen : ((appendLogs N f d).logs ++ [stampedLog (N + 1) (f N)]).length =
        N - (N - 1000) + 1 := by
      rw [List.length_append, List.length_singleton, hlogs, List.length_drop, allLogs_length]
    refine ⟨?_, ?_, ?_⟩
    · rw [hstep, hcreate]
      show (if _ > 1000 then _ else _) = _
      by_cases hN : N < 1000
      · have hns : ¬ (N - (N - 1000) + 1 > 1000) := by omega
        rw [if_neg (by rw [hlen]; exact hns)]
        rw [hlogs, allLogs_succ]
        have h0 : N - 1000 = 0 := by omega
        have h1 : N + 1 - 1000 = 0 := by omega
        rw [h0, h1, List.drop_zero, List.drop_zero]
      · have hge : N - (N - 1000) + 1 > 1000 := by omega
        rw [if_pos (by rw [hlen]; exact hge), hlen, hlogs]
        have hd1 : N - (N - 1000) + 1 - 1000 = 1 := by omega
        rw [hd1]
        have hle1 : 1 ≤ ((allLogs N f).drop (N - 1000)).length := by
          rw [List.length_drop, allLogs_length]
          omega
        rw [List.drop_append_of_le_length hle1, List.drop_drop, allLogs_succ]
        have hle2 : N + 1 - 1000 ≤ (allLogs N f).length := by
          rw [allLogs_length]
          omega
        rw [List.drop_append_of_le_length hle2]
        have harg : N - 1000 + 1 = N + 1 - 1000 := by omega
        rw [harg]
    · rw [hstep, hcreate]
      show (appendLogs N f d).currentLogId + 1 = N + 1 + 1
      rw [hid]
    · rw [hstep, hcreate]
      exact hclock

/-- C7: after N sequential appends on the fresh store the retained
sequence has length min(N, 1000), equals exactly the most recent
min(N, 1000) created entries in insertion order, and their ids are the
consecutive run ending at N (each id distinct and sequential). -/
theorem logSink_retention (N : Nat) (f : Nat → InsertLog) (d : Nat → Bool) :
    (appendLogs N f d).logs.length = min N 1000 ∧
    (appendLogs N f d).logs = (allLogs N f).drop (N - 1000) ∧
    (appendLogs N f d).logs.map Log.id =
      List.range' (N - min N 1000 + 1) (min N 1000) := by
  obtain ⟨hlogs, -, -⟩ := appendLogs_state f d N
  refine ⟨?_, hlogs, ?_⟩
  · rw [hlogs, List.length_drop, allLogs_length]
    omega
  · rw [hlogs, List.map_drop, allLogs_map_id, range'_drop]
    have h1 : 1 + (N - 1000) = N - min N 1000 + 1 := by omega
    have h2 : N - (N - 1000) = min N 1000 := by omega
    rw [h1, h2]

/-! ## C1: activeFarms tracks the number of stored farms -/

theorem deleteFarm_preserves_inv (st : MemStorage) (id : Nat)
    (hb : ∀ kv ∈ st.farms, kv.1 < st.currentFarmId)
    (hs : ∃ s, st.currentStats = some s ∧ s.activeFarms = (st.farms.length : ℤ)) :
    (∀ kv ∈ (deleteFarm st id).2.farms, kv.1 < (deleteFarm st id).2.currentFarmId) ∧
    (∃ s, (deleteFarm st id).2.currentStats = some s ∧
      s.activeFarms = ((deleteFarm st id).2.farms.length : ℤ)) := by
  obtain ⟨s, hcs, hcount⟩ := hs
  cases hget : mapGet st.farms id with
  | none =>
    rw [deleteFarm_absent_eq st id hget]
    exact ⟨hb, ⟨s, hcs, hcount⟩⟩
  | some farm =>
    have hhas : mapHas st.farms id = true := mapHas_of_mapGet_some hget
    have hmem : (id, farm) ∈ st.farms := mem_of_mapGet_some hget
    have hlen : (mapErase st.farms id).length + 1 = st.farms.length :=
      length_mapErase_of_mapHas_true st.farms id hhas
    have hstate : (deleteFarm st id).2 =
        { st with currentStats := some { s with activeFarms := s.activeFarms - 1 }
                  farms := mapErase st.farms id } := by
      unfold deleteFarm
      rw [hget, hcs]
    rw [hstate]
    constructor
    · intro kv hkv
      exact hb kv (mem_of_mem_mapErase hkv)
    · refine ⟨_, rfl, ?_⟩
      show s.activeFarms - 1 = ((mapErase st.farms id).length : ℤ)
      rw [hcount]
      have := hlen
      omega

theorem foldl_deleteFarm_preserves_inv (fs : List Farm) :
    ∀ st : MemStorage,
      (∀ kv ∈ st.farms, kv.1 < st.currentFarmId) →
      (∃ s, st.currentStats = some s ∧ s.activeFarms = (st.farms.length : ℤ)) →
      (∀ kv ∈ (fs.foldl (fun s2 farm => (deleteFarm s2 farm.id).2) st).farms,
        kv.1 < (fs.foldl (fun s2 farm => (deleteFarm s2 farm.id).2) st).currentFarmId) ∧
      (∃ s, (fs.foldl (fun s2 farm => (deleteFarm s2 farm.id).2) st).currentStats = some s ∧
        s.activeFarms =
          ((fs.foldl (fun s2 farm => (deleteFarm s2 farm.id).2) st).farms.length : ℤ)) := by
  induction fs with
  | nil =>
    intro st hb hs
    exact ⟨hb, hs⟩
  | cons f rest ih =>
    intro st hb hs
    obtain ⟨hb2, hs2⟩ := deleteFarm_preserves_inv st f.id hb hs
    exact ih ((deleteFarm st f.id).2) hb2 hs2

theorem applyOp_preserves_inv (st : MemStorage) (op : Op)
    (hb : ∀ kv ∈ st.farms, kv.1 < st.currentFarmId)
    (hs : ∃ s, st.currentStats = some s ∧ s.activeFarms = (st.farms.length : ℤ))
    (hsafe : ∀ p, op = Op.updateStats p → p.activeFarms = none) :
    (∀ kv ∈ (applyOp st op).farms, kv.1 < (applyOp st op).currentFarmId) ∧
    (∃ s, (applyOp st op).currentStats = some s ∧
      s.activeFarms = ((applyOp st op).farms.length : ℤ)) := by
  obtain ⟨s, hcs, hcount⟩ := hs
  cases op with
  | createAccount ins =>
    exact ⟨hb, ⟨s, hcs, hcount⟩⟩
  | createFarm ins =>
    have hfresh : mapHas st.farms st.currentFarmId = false :=
      mapHas_false_of_keys_bound _ _ (fun kv hkv => Nat.ne_of_lt (hb kv hkv))
    have hstate : applyOp st (Op.createFarm ins) =
        { st with
            farms := mapSet st.farms st.currentFarmId
              { id := st.currentFarmId, accountId := ins.accountId
                channelName := ins.channelName, channelId := "", profileImage := ""
                status := "active", uptime := 0, pointsClaimed := 0, watchTime := 0
                enabled := true, features := ins.features
                predictionSettings := ins.predictionSettings, lastActivity := st.clock }
            currentFarmId := st.currentFarmId + 1
            currentStats := some { s with activeFarms := s.activeFarms + 1 } } := by
      show (createFarm st ins).2 = _
      unfold createFarm
      rw [hcs]
    rw [hstate]
    constructor
    · intro kv hkv
      rcases mem_mapSet hkv with h1 | h1
      · exact Nat.lt_succ_of_lt (hb kv h1)
      · rw [h1]
        exact Nat.lt_succ_self _
    · refine ⟨_, rfl, ?_⟩
      show s.activeFarms + 1 = _
      rw [length_mapSet_of_mapHas_false st.farms st.currentFarmId _ hfresh, hcount]
      omega
  | updateFarm id p =>
    cases hget : mapGet st.farms id with
    | none =>
      have hstate : applyOp st (Op.updateFarm id p) = st := by
        show (updateFarm st id p).2 = st
        unfold updateFarm
        rw [hget]
      rw [hstate]
      exact ⟨hb, ⟨s, hcs, hcount⟩⟩
    | some farm =>
      have hhas : mapHas st.farms id = true := mapHas_of_mapGet_some hget
      have hmem : (id, farm) ∈ st.farms := mem_of_mapGet_some hget
      have hstate : applyOp st (Op.updateFarm id p) =
          { st with farms := mapSet st.farms id (mergeFarm farm p) } := by
        show (updateFarm st id p).2 = _
        unfold updateFarm
        rw [hget]
      rw [hstate]
      constructor
      · intro kv hkv
        rcases mem_mapSet hkv with h1 | h1
        · exact hb kv h1
        · rw [h1]
          exact hb (id, farm) hmem
      · exact ⟨s, hcs, by rw [length_mapSet_of_mapHas_true st.farms id _ hhas]; exact hcount⟩
  | deleteFarm id =>
    exact deleteFarm_preserves_inv st id hb ⟨s, hcs, hcount⟩
  | deleteAccount id =>
    exact foldl_deleteFarm_preserves_inv (getFarmsByAccountId st id) st hb ⟨s, hcs, hcount⟩
  | createLog ins deliveryOk =>
    exact ⟨hb, ⟨s, hcs, hcount⟩⟩
  | updateStats p =>
    have hpa : p.activeFarms = none := hsafe p rfl
    have hstate : applyOp st (Op.updateStats p) =
        { st with currentStats := some (mergeStat s p) } := by
      show (updateStats st p).2 = _
      unfold updateStats
      rw [hcs]
    rw [hstate]
    refine ⟨hb, ⟨mergeStat s p, rfl, ?_⟩⟩
    show p.activeFarms.getD s.activeFarms = _
    rw [hpa]
    exact hcount

theorem run_preserves_inv (ops : List Op) :
    ∀ st : MemStorage,
      (∀ kv ∈ st.farms, kv.1 < st.currentFarmId) →
      (∃ s, st.currentStats = some s ∧ s.activeFarms = (st.farms.length : ℤ)) →
      (∀ p, Op.updateStats p ∈ ops → p.activeFarms = none) →
      (∀ kv ∈ (ops.foldl applyOp st).farms, kv.1 < (ops.foldl applyOp st).currentFarmId) ∧
      (∃ s, (ops.foldl applyOp st).currentStats = some s ∧
        s.activeFarms = ((ops.foldl applyOp st).farms.length : ℤ)) := by
  induction ops with
  | nil =>
    intro st hb hs _
    exact ⟨hb, hs⟩
  | cons op rest ih =>
    intro st hb hs hsafe
    obtain ⟨hb2, hs2⟩ := applyOp_preserves_inv st op hb hs
      (fun p hpe => hsafe p (by rw [hpe]; exact List.mem_cons_self _ _))
    exact ih (applyOp st op) hb2 hs2 (fun p hp => hsafe p (List.mem_cons_of_mem op hp))

/-- C1 (amended): along every operation sequence from the fresh store in
which no stats update carries an activeFarms field (as holds for every
updateStats call the system makes, which only patch predictionRate),
Stat.activeFarms equals the number of Farm records in the store.  The
unrestricted claim fails because updateStats spread-merges arbitrary
patches over the snapshot. -/
theorem activeFarms_matches_farm_count (ops : List Op)
    (h : ∀ p, Op.updateStats p ∈ ops → p.activeFarms = none) :
    ∃ s, (run ops).currentStats = some s ∧
      s.activeFarms = ((run ops).farms.length : ℤ) := by
  have hinit1 : ∀ kv ∈ initialStorage.farms, kv.1 < initialStorage.currentFarmId := by
    intro kv hkv
    cases hkv
  have hinit2 : ∃ s, initialStorage.currentStats = some s ∧
      s.activeFarms = ((initialStorage.farms.length : ℕ) : ℤ) := ⟨_, rfl, rfl⟩
  exact (run_preserves_inv ops initialStorage hinit1 hinit2 h).2

/-- C1 witness: a run that creates an account, creates two farms, deletes
one and applies a predictionRate-only stats update ends with activeFarms
equal to the single remaining farm. -/
theorem activeFarms_matches_farm_count_witness :
    ∃ s, (run demoOps).currentStats = some s ∧
      s.activeFarms = ((run demoOps).farms.length : ℤ) := by
  apply activeFarms_matches_farm_count demoOps
  intro p hp
  simp only [demoOps, List.mem_cons, List.not_mem_nil, or_false] at hp
  rcases hp with h1 | h1 | h1 | h1 | h1 <;> first
    | (cases h1; rfl)
    | cases h1

/-- C1 counterexample: a single updateStats carrying activeFarms := 1 is
one of the claimed reachability operations, yet it leaves one claimed
active farm while the store holds none. -/
theorem activeFarms_counterexample :
    (run [Op.updateStats activeFarmsPatch]).farms.length = 0 ∧
    (run [Op.updateStats activeFarmsPatch]).currentStats =
      some { id := 1, date := 0, activeFarms := 1, pointsClaimed := 0
             watchHours := 0, predictionRate := 0 } ∧
    (1 : ℤ) ≠ ((0 : ℕ) : ℤ) := by
  refine ⟨rfl, rfl, by decide⟩

/-! ## C4: account deletion cascades to the owned farms -/

theorem foldl_deleteFarm_spec (fs : List Farm) :
    ∀ st : MemStorage,
      (st.farms.map Prod.fst).Nodup →
      (∀ kv ∈ st.farms, kv.2.id = kv.1) →
      (∀ f ∈ fs, (f.id, f) ∈ st.farms) →
      ((fs.map Farm.id).Nodup) →
      (fs.foldl (fun s2 farm => (deleteFarm s2 farm.id).2) st).farms =
        st.farms.filter (fun kv => !((fs.map Farm.id).contains kv.1)) ∧
      (fs.foldl (fun s2 farm => (deleteFarm s2 farm.id).2) st).currentStats =
        st.currentStats.map (fun s =>
          { s with activeFarms := s.activeFarms - (fs.length : ℤ) }) ∧
      (fs.foldl (fun s2 farm => (deleteFarm s2 farm.id).2) st).accounts = st.accounts := by
  induction fs with
  | nil =>
    intro st hnd hid hmem hndf
    refine ⟨?_, ?_, rfl⟩
    · symm
      apply List.filter_eq_self.2
      intro kv hkv
      rfl
    · show st.currentStats = st.currentStats.map _
      cases h : st.currentStats with
      | none => rfl
      | some s =>
        show some s = some _
        simp
  | cons f rest ih =>
    intro st hnd hid hmem hndf
    have hmemf : (f.id, f) ∈ st.farms := hmem f (List.mem_cons_self f rest)
    have hget : mapGet st.farms f.id = some f := mapGet_of_mem_nodup _ _ _ hnd hmemf
    have hndf2 : (f.id ∉ rest.map Farm.id) ∧ (rest.map Farm.id).Nodup := by
      have h2 := hndf
      rw [List.map_cons, List.nodup_cons] at h2
      exact h2
    have hstate : (deleteFarm st f.id).2 =
        { st with
            currentStats := st.currentStats.map (fun s =>
              { s with activeFarms := s.activeFarms - 1 })
            farms := st.farms.filter (fun kv => !(kv.1 == f.id)) } := by
      unfold deleteFarm
      rw [hget, mapErase_eq_filter_of_nodup st.farms f.id hnd]
      cases st.currentStats <;> rfl
    have hfoldcons : (f :: rest).foldl (fun s2 farm => (deleteFarm s2 farm.id).2) st =
        rest.foldl (fun s2 farm => (deleteFarm s2 farm.id).2) ((deleteFarm st f.id).2) :=
      List.foldl_cons _ _
    have hsub : ((st.farms.filter (fun kv => !(kv.1 == f.id))).map Prod.fst).Sublist
        (st.farms.map Prod.fst) :=
      (List.filter_sublist st.farms).map Prod.fst
    have hnd1 : (((deleteFarm st f.id).2).farms.map Prod.fst).Nodup := by
      rw [hstate]
      exact hnd.sublist hsub
    have hid1 : ∀ kv ∈ ((deleteFarm st f.id).2).farms, kv.2.id = kv.1 := by
      rw [hstate]
      intro kv hkv
      exact hid kv (List.mem_filter.1 hkv).1
    have hmem1 : ∀ g ∈ rest, (g.id, g) ∈ ((deleteFarm st f.id).2).farms := by
      rw [hstate]
      intro g hg
      have hne : g.id ≠ f.id := by
        intro he
        exact hndf2.1 (he ▸ List.mem_map_of_mem Farm.id hg)
      exact List.mem_filter.2 ⟨hmem g (List.mem_cons_of_mem f hg), by simp [hne]⟩
    obtain ⟨hfarms, hstats, haccounts⟩ :=
      ih ((deleteFarm st f.id).2) hnd1 hid1 hmem1 hndf2.2
    rw [hfoldcons]
    refine ⟨?_, ?_, ?_⟩
    · rw [hfarms, hstate]
      show (st.farms.filter (fun kv => !(kv.1 == f.id))).filter
          (fun kv => !((rest.map Farm.id).contains kv.1)) = _
      rw [List.filter_filter]
      apply List.filter_congr
      intro kv hkv
      show (!((rest.map Farm.id).contains kv.1) && !(kv.1 == f.id)) =
        !(((f :: rest).map Farm.id).contains kv.1)
      rw [List.map_cons]
      show _ = !((kv.1 == f.id) || (rest.map Farm.id).contains kv.1)
      rw [Bool.not_or, Bool.and_comm]
    · rw [hstats, hstate]
      show (st.currentStats.map _).map _ = _
      rw [Option.map_map]
      apply congrArg (fun g => Option.map g st.currentStats)
      funext s
      show Stat.mk s.id s.date (s.activeFarms - 1 - (rest.length : ℤ)) s.pointsClaimed
          s.watchHours s.predictionRate =
        Stat.mk s.id s.date (s.activeFarms - ((f :: rest).length : ℤ)) s.pointsClaimed
          s.watchHours s.predictionRate
      have harith : s.activeFarms - 1 - (rest.length : ℤ) =
          s.activeFarms - (((f :: rest).length : ℕ) : ℤ) := by
        rw [List.length_cons]
        push_cast
        ring
      rw [harith]
    · rw [haccounts, hstate]

/-- C4: deleteAccount removes every farm whose accountId is the deleted
account (decrementing Stat.activeFarms once per owned farm) and removes
the account record itself; farms of other accounts survive untouched.
The hypotheses state the store's key discipline: map keys are unique and
each stored farm's id field equals its key, as every state built through
createFarm satisfies. -/
theorem deleteAccount_removes_owned_farms (st : MemStorage) (accId : Nat)
    (hndF : (st.farms.map Prod.fst).Nodup)
    (hid : ∀ kv ∈ st.farms, kv.2.id = kv.1)
    (hndA : (st.accounts.map Prod.fst).Nodup) :
    (∀ kv ∈ (deleteAccount st accId).2.farms, kv.2.accountId ≠ accId) ∧
    (deleteAccount st accId).2.farms =
      st.farms.filter (fun kv => !(kv.2.accountId == accId)) ∧
    mapGet (deleteAccount st accId).2.accounts accId = none ∧
    (deleteAccount st accId).2.currentStats =
      st.currentStats.map (fun s =>
        { s with activeFarms :=
          s.activeFarms - ((getFarmsByAccountId st accId).length : ℤ) }) := by
  have hmem : ∀ f ∈ getFarmsByAccountId st accId, (f.id, f) ∈ st.farms := by
    intro f hf
    obtain ⟨kv, hkv, hkv2⟩ := List.mem_map.1 (List.mem_filter.1 hf).1
    have hkey : kv.1 = f.id := by
      rw [← hkv2]
      exact (hid kv hkv).symm
    have : (f.id, f) = kv := by
      obtain ⟨k1, v1⟩ := kv
      simp only at hkey hkv2
      rw [hkey, hkv2]
    rw [this]
    exact hkv
  have hndfs : ((getFarmsByAccountId st accId).map Farm.id).Nodup := by
    have hsub : ((getFarmsByAccountId st accId).map Farm.id).Sublist
        ((st.farms.map Prod.snd).map Farm.id) :=
      (List.filter_sublist (st.farms.map Prod.snd)).map Farm.id
    have heq : (st.farms.map Prod.snd).map Farm.id = st.farms.map Prod.fst := by
      rw [List.map_map]
      exact List.map_congr_left (fun kv hkv => hid kv hkv)
    exact (heq ▸ hndF).sublist hsub
  obtain ⟨hfarms, hstats, haccounts⟩ :=
    foldl_deleteFarm_spec (getFarmsByAccountId st accId) st hndF hid hmem hndfs
  have hDA : (deleteAccount st accId).2 =
      { (getFarmsByAccountId st accId).foldl (fun s2 farm => (deleteFarm s2 farm.id).2) st with
          accounts := mapErase
            ((getFarmsByAccountId st accId).foldl
              (fun s2 farm => (deleteFarm s2 farm.id).2) st).accounts accId } := rfl
  have hfilter : (deleteAccount st accId).2.farms =
      st.farms.filter (fun kv => !(kv.2.accountId == accId)) := by
    rw [hDA]
    show ((getFarmsByAccountId st accId).foldl
        (fun s2 farm => (deleteFarm s2 farm.id).2) st).farms = _
    rw [hfarms]
    apply List.filter_congr
    intro kv hkv
    apply congrArg Bool.not
    apply Bool.coe_iff_coe.mp
    constructor
    · intro hc
      have hin : kv.1 ∈ (getFarmsByAccountId st accId).map Farm.id := List.elem_iff.mp hc
      obtain ⟨f, hf, hfid⟩ := List.mem_map.1 hin
      have hkv2 : kv = (f.id, f) :=
        eq_of_mem_of_same_key_nodup hndF hkv (hmem f hf) (by rw [hfid])
      have hacc : f.accountId == accId := (List.mem_filter.1 hf).2
      rw [hkv2]
      exact hacc
    · intro hacc
      apply List.elem_iff.mpr
      have hsnd : kv.2 ∈ getFarmsByAccountId st accId :=
        List.mem_filter.2 ⟨List.mem_map_of_mem Prod.snd hkv, hacc⟩
      have : kv.2.id = kv.1 := hid kv hkv
      exact this ▸ List.mem_map_of_mem Farm.id hsnd
  refine ⟨?_, hfilter, ?_, ?_⟩
  · intro kv hkv
    rw [hfilter] at hkv
    have h2 := (List.mem_filter.1 hkv).2
    simpa using h2
  · rw [hDA]
    show mapGet (mapErase _ accId) accId = none
    rw [haccounts, mapErase_eq_filter_of_nodup st.accounts accId hndA]
    unfold mapGet
    rw [List.find?_eq_none.mpr]
    · rfl
    · intro kv hkv hbeq
      have h2 := (List.mem_filter.1 hkv).2
      rw [hbeq] at h2
      cases h2
  · rw [hDA]
    exact hstats

/-- C4 witness: deleting account 1 from a store holding its two farms and
one foreign farm leaves only the foreign farm, no farm of account 1,
removes the account, and decrements activeFarms by 2. -/
theorem deleteAccount_removes_owned_farms_witness :
    (∀ kv ∈ (deleteAccount cascadeStore 1).2.farms, kv.2.accountId ≠ 1) ∧
    (deleteAccount cascadeStore 1).2.farms =
      cascadeStore.farms.filter (fun kv => !(kv.2.accountId == 1)) ∧
    mapGet (deleteAccount cascadeStore 1).2.accounts 1 = none ∧
    (deleteAccount cascadeStore 1).2.currentStats =
      cascadeStore.currentStats.map (fun s =>
        { s with activeFarms :=
          s.activeFarms - ((getFarmsByAccountId cascadeStore 1).length : ℤ) }) :=
  deleteAccount_removes_owned_farms cascadeStore 1 (by decide)
    (by decide) (by decide)

end TwitchAutoFarm
